import Mathlib

/-!
Verification of the DB-MATHS-SOLVER.AI repository: a shallow embedding of
the conversation controller (App component), the solve request client
(`geminiService.solveMathProblem`) and the markup renderer
(`MathResponse.MathRenderer`), with theorems settling the claims about them.

Conventions of the embedding:
  * React `useState` fields become fields of an explicit `AppState` record;
    each event handler becomes a pure state-transition function.
  * `localStorage` under the single key used by the app is modelled as the
    `store` field (`Option (List ChatHistoryItem)`): `none` is an absent key,
    `some l` is the key holding the JSON serialization of `l`.
  * The asynchronous solve call is modelled by passing its outcome
    (`Except Unit SolveResponse`) as an argument to `processSolution`;
    `Date.now()` is modelled by an explicit `now : Nat` argument.
  * JavaScript string truthiness (`""` is falsy) is modelled explicitly at
    every `||` in the source.
-/

/-! ## Data model (types.ts) -/

inductive MessageRole where
  | user
  | assistant
deriving DecidableEq

inductive MsgType where
  | text
  | image
  | drawing
deriving DecidableEq

structure SolveStep where
  title : String
  explanation : String
  math : String
deriving DecidableEq

structure SolveResponse where
  description : String
  concepts : List String
  steps : List SolveStep
  finalAnswer : String
  tutoringTip : Option String := none
deriving DecidableEq

structure Message where
  id : String
  role : MessageRole
  content : String
  timestamp : Nat
  image : Option String := none
  type : Option MsgType := none
  metadata : Option SolveResponse := none
deriving DecidableEq

structure ChatHistoryItem where
  id : String
  title : String
  timestamp : Nat
  lastMessage : String
deriving DecidableEq

inductive ExplanationLevel where
  | quick
  | standard
  | deep
  | academic
deriving DecidableEq

/-- The controller state: the `useState` fields of the `App` component,
plus the `localStorage` entry under the history key (`store`). -/
structure AppState where
  messages : List Message
  inputValue : String
  isSolving : Bool
  showDrawing : Bool
  selectedImage : Option String
  explanationLevel : ExplanationLevel
  history : List ChatHistoryItem
  store : Option (List ChatHistoryItem)
deriving DecidableEq

/-! ## JSON serialization (JSON.stringify of a SolveResponse)

`processSolution` sets the assistant message content to
`JSON.stringify(responseData)`; we model that serialization here. -/

def hexDigit (n : Nat) : Char :=
  if n < 10 then Char.ofNat (48 + n) else Char.ofNat (87 + n)

def escChar (c : Char) : String :=
  if c = '"' then "\\\""
  else if c = '\\' then "\\\\"
  else if c = '\n' then "\\n"
  else if c = '\r' then "\\r"
  else if c = '\t' then "\\t"
  else if c = '\x08' then "\\b"
  else if c = '\x0c' then "\\f"
  else if c.toNat < 32 then
    "\\u00" ++ String.singleton (hexDigit (c.toNat / 16)) ++ String.singleton (hexDigit (c.toNat % 16))
  else String.singleton c

def quoteJson (s : String) : String :=
  "\"" ++ String.join (s.data.map escChar) ++ "\""

def stringifyStep (st : SolveStep) : String :=
  "\x7b\"title\":" ++ quoteJson st.title ++
  ",\"explanation\":" ++ quoteJson st.explanation ++
  ",\"math\":" ++ quoteJson st.math ++ "\x7d"

def stringifyArr (items : List String) : String :=
  "[" ++ String.intercalate ("," : String) items ++ "]"

/-- `JSON.stringify` of a `SolveResponse` value (field insertion order of the
type declaration; an absent optional `tutoringTip` is omitted, as
`JSON.stringify` omits `undefined` properties). -/
def stringifySolve (r : SolveResponse) : String :=
  "\x7b\"description\":" ++ quoteJson r.description ++
  ",\"concepts\":" ++ stringifyArr (r.concepts.map quoteJson) ++
  ",\"steps\":" ++ stringifyArr (r.steps.map stringifyStep) ++
  ",\"finalAnswer\":" ++ quoteJson r.finalAnswer ++
  (match r.tutoringTip with
   | some t => ",\"tutoringTip\":" ++ quoteJson t
   | none => "") ++
  "\x7d"

/-! ## Conversation controller (App component) -/

/-- JavaScript truthiness of an optional string (`undefined`/`null` and `""`
are falsy). -/
def jsTruthy : Option String → Bool
  | none => false
  | some s => s ≠ ""

/-- The history entry built inside `saveToHistory`: the title is truncated to
its first 30 characters plus `"..."` when longer than 30 characters. -/
def mkHistoryItem (now : Nat) (title lastMsg : String) : ChatHistoryItem :=
  { id := toString now
    title := if 30 < title.length then title.take 30 ++ "..." else title
    timestamp := now
    lastMessage := lastMsg }

/-- `saveToHistory(title, lastMsg)`: prepend the new entry, keep the first 20,
store the updated list in state and in `localStorage`. -/
def saveToHistory (now : Nat) (title lastMsg : String) (s : AppState) : AppState :=
  let updated := (mkHistoryItem now title lastMsg :: s.history).take 20
  { s with history := updated, store := some updated }

/-- The user message appended by `processSolution`
(`content: text || "Help me solve this image."`, `image: image || undefined`,
`type: image ? 'image' : 'text'`). -/
def mkUserMsg (now : Nat) (text : String) (image : Option String) : Message :=
  { id := toString now
    role := .user
    content := if text = "" then "Help me solve this image." else text
    image := if jsTruthy image then image else none
    timestamp := now
    type := some (if jsTruthy image then .image else .text) }

/-- The assistant message appended on a successful solve: `content` is the
JSON serialization of the response, `metadata` is the response itself. -/
def mkAssistantMsg (now : Nat) (r : SolveResponse) : Message :=
  { id := toString (now + 1)
    role := .assistant
    content := stringifySolve r
    timestamp := now
    metadata := some r }

/-- The fixed fallback text appended by the `catch` branch of
`processSolution`. -/
def fallbackText : String :=
  "I ran into a problem calculation. Please check your connection or try a different question."

/-- The assistant message appended when the solve call fails: fallback text,
no metadata. -/
def mkFallbackMsg (now : Nat) : Message :=
  { id := toString (now + 1)
    role := .assistant
    content := fallbackText
    timestamp := now }

/-- The history title expression `responseData.description || text || "Math Problem"`
(JavaScript `||` with string truthiness). -/
def solveTitle (text : String) (r : SolveResponse) : String :=
  if r.description = "" then (if text = "" then "Math Problem" else text)
  else r.description

/-- `processSolution(text, image)`: dropped when `isSolving`; otherwise
appends the user message, clears staging state, and — depending on the
outcome of `solveMathProblem` (passed in as `result`) — appends either the
structured assistant message plus a history entry, or the fallback message.
`isSolving` is reset by the `finally` clause in both branches. -/
def processSolution (now : Nat) (text : String) (image : Option String)
    (result : Except Unit SolveResponse) (s : AppState) : AppState :=
  if s.isSolving then s
  else
    let s1 : AppState :=
      { s with
        isSolving := true
        messages := s.messages ++ [mkUserMsg now text image]
        inputValue := ""
        selectedImage := none
        showDrawing := false }
    match result with
    | .ok r =>
      let s2 := { s1 with messages := s1.messages ++ [mkAssistantMsg now r] }
      let s3 := saveToHistory now (solveTitle text r) r.finalAnswer s2
      { s3 with isSolving := false }
    | .error _ =>
      { s1 with
        messages := s1.messages ++ [mkFallbackMsg now]
        isSolving := false }

/-- The "Clear All History" button:
`setMessages([]); setHistory([]); localStorage.removeItem('math_solver_history')`. -/
def clearHistory (s : AppState) : AppState :=
  { s with messages := [], history := [], store := none }

/-- The header clear-conversation button: `setMessages([])` only. -/
def clearConversation (s : AppState) : AppState :=
  { s with messages := [] }

/-- The startup effect:
`const saved = localStorage.getItem(...); if (saved) setHistory(JSON.parse(saved))` —
the parsed value is installed verbatim, with no truncation or validation. -/
def loadHistoryEffect (s : AppState) : AppState :=
  match s.store with
  | some l => { s with history := l }
  | none => s

/-- One successful solve interaction: the timestamp, the submitted text and
image, and the structured response the backend returned. -/
structure SolveCall where
  now : Nat
  text : String
  image : Option String
  response : SolveResponse
deriving DecidableEq

/-- Run a sequence of successful solves through the controller. -/
def runSolves (calls : List SolveCall) (s : AppState) : AppState :=
  calls.foldl (fun st c => processSolution c.now c.text c.image (.ok c.response) st) s

/-- The history entry recorded for one successful solve call. -/
def solveEntry (c : SolveCall) : ChatHistoryItem :=
  mkHistoryItem c.now (solveTitle c.text c.response) c.response.finalAnswer

/-- The history entries a sequence of successful solves produces, newest
first. -/
def historyEntriesOf (calls : List SolveCall) : List ChatHistoryItem :=
  (calls.map solveEntry).reverse

/-- An initial controller state: fresh page, empty store. -/
def initState : AppState :=
  { messages := []
    inputValue := ""
    isSolving := false
    showDrawing := false
    selectedImage := none
    explanationLevel := .standard
    history := []
    store := none }

/-! ## Solve request client (services/geminiService.ts)

The service sends the request and then runs
`JSON.parse(response.text || "{}")` on the result, with no schema
validation of its own; any thrown error (transport or parse) propagates to
the caller. We model `JSON.parse` with an executable JSON parser over the
response text, and the transport outcome as an `Except` argument. -/

/-- A JSON value. Number literals keep their source lexeme (their numeric
value plays no role in any property considered here). -/
inductive Json where
  | null
  | bool (b : Bool)
  | num (lexeme : String)
  | str (s : String)
  | arr (elems : List Json)
  | obj (fields : List (String × Json))

/-- Skip JSON whitespace (space, tab, line feed, carriage return). -/
def skipWs : List Char → List Char
  | [] => []
  | c :: rest =>
    if c = ' ' ∨ c = '\t' ∨ c = '\n' ∨ c = '\r' then skipWs rest else c :: rest

def hexVal (c : Char) : Option Nat :=
  if '0' ≤ c ∧ c ≤ '9' then some (c.toNat - 48)
  else if 'a' ≤ c ∧ c ≤ 'f' then some (c.toNat - 87)
  else if 'A' ≤ c ∧ c ≤ 'F' then some (c.toNat - 55)
  else none

/-- Parse the body of a JSON string (the opening quote already consumed),
handling the escape sequences of the JSON grammar and rejecting raw control
characters. -/
def parseJsonStr : List Char → Option (List Char × List Char)
  | [] => none
  | c :: rest =>
    if c = '"' then some ([], rest)
    else if c = '\\' then
      match rest with
      | [] => none
      | e :: rest2 =>
        if e = '"' ∨ e = '\\' ∨ e = '/' then
          match parseJsonStr rest2 with
          | some (body, r) => some (e :: body, r)
          | none => none
        else if e = 'b' then
          match parseJsonStr rest2 with
          | some (body, r) => some ('\x08' :: body, r)
          | none => none
        else if e = 'f' then
          match parseJsonStr rest2 with
          | some (body, r) => some ('\x0c' :: body, r)
          | none => none
        else if e = 'n' then
          match parseJsonStr rest2 with
          | some (body, r) => some ('\n' :: body, r)
          | none => none
        else if e = 'r' then
          match parseJsonStr rest2 with
          | some (body, r) => some ('\r' :: body, r)
          | none => none
        else if e = 't' then
          match parseJsonStr rest2 with
          | some (body, r) => some ('\t' :: body, r)
          | none => none
        else if e = 'u' then
          match rest2 with
          | h1 :: h2 :: h3 :: h4 :: rest3 =>
            match hexVal h1, hexVal h2, hexVal h3, hexVal h4 with
            | some a, some b, some cc, some d =>
              match parseJsonStr rest3 with
              | some (body, r) =>
                some (Char.ofNat (a * 4096 + b * 256 + cc * 16 + d) :: body, r)
              | none => none
            | _, _, _, _ => none
          | _ => none
        else none
    else if c.toNat < 32 then none
    else
      match parseJsonStr rest with
      | some (body, r) => some (c :: body, r)
      | none => none

/-- Take a maximal run of decimal digits. -/
def takeDigits : List Char → List Char × List Char
  | [] => ([], [])
  | c :: rest =>
    if c.isDigit then
      match takeDigits rest with
      | (ds, r) => (c :: ds, r)
    else ([], c :: rest)

/-- Parse a JSON number starting at its first character, returning its
lexeme: `-? (0 | [1-9][0-9]*) (. [0-9]+)? ([eE] [+-]? [0-9]+)?`. -/
def parseJsonNum (s : List Char) : Option (List Char × List Char) :=
  let (sign, s1) := match s with
    | '-' :: r => (['-'], r)
    | _ => (([] : List Char), s)
  match s1 with
  | [] => none
  | c :: rest =>
    if ¬ c.isDigit then none
    else
      let (intPart, s2) :=
        if c = '0' then ([c], rest)
        else match takeDigits rest with
          | (ds, r) => (c :: ds, r)
      let fracRes : Option (List Char × List Char) :=
        match s2 with
        | '.' :: r =>
          match takeDigits r with
          | ([], _) => none
          | (ds, r2) => some ('.' :: ds, r2)
        | _ => some ([], s2)
      match fracRes with
      | none => none
      | some (fracPart, s3) =>
        let expRes : Option (List Char × List Char) :=
          match s3 with
          | e :: r =>
            if e = 'e' ∨ e = 'E' then
              let (es, r1) := match r with
                | '+' :: r2 => ([e, '+'], r2)
                | '-' :: r2 => ([e, '-'], r2)
                | _ => ([e], r)
              match takeDigits r1 with
              | ([], _) => none
              | (ds, r2) => some (es ++ ds, r2)
            else some ([], s3)
          | [] => some ([], s3)
        match expRes with
        | none => none
        | some (expPart, s4) => some (sign ++ intPart ++ fracPart ++ expPart, s4)

mutual

/-- Parse one JSON value (fuel-indexed recursive descent; the fuel bounds the
nesting depth and always suffices when it exceeds the input length). -/
def parseJsonValue : Nat → List Char → Option (Json × List Char)
  | 0, _ => none
  | fuel + 1, input =>
    match skipWs input with
    | [] => none
    | c :: rest =>
      if c = '{' then
        match skipWs rest with
        | '}' :: rest2 => some (.obj [], rest2)
        | rest2 =>
          match parseJsonMembers fuel rest2 with
          | some (fields, r) => some (.obj fields, r)
          | none => none
      else if c = '[' then
        match skipWs rest with
        | ']' :: rest2 => some (.arr [], rest2)
        | rest2 =>
          match parseJsonElems fuel rest2 with
          | some (elems, r) => some (.arr elems, r)
          | none => none
      else if c = '"' then
        match parseJsonStr rest with
        | some (body, r) => some (.str (String.mk body), r)
        | none => none
      else if c = 't' then
        match rest with
        | 'r' :: 'u' :: 'e' :: r => some (.bool true, r)
        | _ => none
      else if c = 'f' then
        match rest with
        | 'a' :: 'l' :: 's' :: 'e' :: r => some (.bool false, r)
        | _ => none
      else if c = 'n' then
        match rest with
        | 'u' :: 'l' :: 'l' :: r => some (.null, r)
        | _ => none
      else
        match parseJsonNum (c :: rest) with
        | some (lex, r) => some (.num (String.mk lex), r)
        | none => none

/-- Parse the members of a JSON object, positioned after `{` (and after any
handled empty-object case), up to and including the closing `}`. -/
def parseJsonMembers : Nat → List Char → Option (List (String × Json) × List Char)
  | 0, _ => none
  | fuel + 1, input =>
    match skipWs input with
    | '"' :: rest =>
      match parseJsonStr rest with
      | none => none
      | some (key, rest2) =>
        match skipWs rest2 with
        | ':' :: rest3 =>
          match parseJsonValue fuel rest3 with
          | none => none
          | some (v, rest4) =>
            match skipWs rest4 with
            | ',' :: rest5 =>
              match parseJsonMembers fuel rest5 with
              | some (fields, r) => some ((String.mk key, v) :: fields, r)
              | none => none
            | '}' :: rest5 => some ([(String.mk key, v)], rest5)
            | _ => none
        | _ => none
    | _ => none

/-- Parse the elements of a JSON array, positioned after `[` (and after any
handled empty-array case), up to and including the closing `]`. -/
def parseJsonElems : Nat → List Char → Option (List Json × List Char)
  | 0, _ => none
  | fuel + 1, input =>
    match parseJsonValue fuel input with
    | none => none
    | some (v, rest) =>
      match skipWs rest with
      | ',' :: rest2 =>
        match parseJsonElems fuel rest2 with
        | some (elems, r) => some (v :: elems, r)
        | none => none
      | ']' :: rest2 => some ([v], rest2)
      | _ => none

end

/-- `JSON.parse`: parse one value and require only trailing whitespace. -/
def jsonParse (s : String) : Option Json :=
  match parseJsonValue (s.data.length + 1) s.data with
  | some (v, rest) => if skipWs rest = [] then some v else none
  | none => none

/-- The substitution `response.text || "{}"` (absent or empty response text
is replaced by the empty-object literal before parsing). -/
def jsSubstituteEmpty : Option String → String
  | none => "\x7b\x7d"
  | some t => if t = "" then "\x7b\x7d" else t

/-- The result of `solveMathProblem` as a function of the transport outcome:
a transport failure propagates; otherwise the response text (possibly
substituted) is `JSON.parse`d, a parse failure propagates, and the parsed
value is returned with no further validation. -/
def solveMathProblemResult (transport : Except Unit (Option String)) : Except Unit Json :=
  match transport with
  | .error e => .error e
  | .ok text =>
    match jsonParse (jsSubstituteEmpty text) with
    | some v => .ok v
    | none => .error ()

def isJsonStr : Json → Bool
  | .str _ => true
  | _ => false

def getField : List (String × Json) → String → Option Json
  | [], _ => none
  | (k, v) :: rest, key => if k = key then some v else getField rest key

def isStepShaped : Json → Bool
  | .obj fs =>
    (match getField fs ("title") with | some v => isJsonStr v | none => false) &&
    (match getField fs ("explanation") with | some v => isJsonStr v | none => false) &&
    (match getField fs ("math") with | some v => isJsonStr v | none => false)
  | _ => false

/-- Modelled from the spec: the expected structured shape of a solve
response — an object with required fields `description` (string),
`concepts` (array of strings), `steps` (array of objects with required
`title`, `explanation`, `math` strings) and `finalAnswer` (string). The
source performs no such check; this predicate states the shape the claim
says is required. -/
def specRequiredShape : Json → Bool
  | .obj fs =>
    (match getField fs ("description") with | some v => isJsonStr v | none => false) &&
    (match getField fs ("concepts") with
     | some (.arr l) => l.all isJsonStr
     | _ => false) &&
    (match getField fs ("steps") with
     | some (.arr l) => l.all isStepShaped
     | _ => false) &&
    (match getField fs ("finalAnswer") with | some v => isJsonStr v | none => false)
  | _ => false

/-! ### Image payload preparation (geminiService.ts lines 39-47) -/

/-- JavaScript `String.prototype.split(',')` over the character list:
`"".split(',')` is `[""]`, and separators at the ends produce empty
segments. -/
def splitComma : List Char → List (List Char)
  | [] => [[]]
  | c :: rest =>
    if c = ',' then [] :: splitComma rest
    else
      match splitComma rest with
      | [] => [[c]]
      | h :: t => (c :: h) :: t

/-- The image data sent to the backend: `image.split(',')[1] || image` —
the second comma-separated segment when it exists and is non-empty,
otherwise the whole string. -/
def imageDataPayloadL (image : List Char) : List Char :=
  match (splitComma image).get? 1 with
  | some seg => if seg = [] then image else seg
  | none => image

def imageDataPayload (image : String) : String :=
  String.mk (imageDataPayloadL image.data)

structure InlineImagePart where
  mimeType : String
  data : String
deriving DecidableEq

/-- The inline image part built by `solveMathProblem`: the MIME type is the
hard-coded `"image/png"` regardless of the original image format. -/
def buildInlineImagePart (image : String) : InlineImagePart :=
  { mimeType := "image/png", data := imageDataPayload image }

/-- Modelled from the spec claim wording: the payload would be the substring
after the FIRST comma when the string contains one, and the whole string
otherwise. (Stated for comparison with `imageDataPayloadL`, which embeds the
source.) -/
def dropThroughComma : List Char → Option (List Char)
  | [] => none
  | c :: rest => if c = ',' then some rest else dropThroughComma rest

def claimedImagePayloadL (image : List Char) : List Char :=
  match dropThroughComma image with
  | some r => r
  | none => image

def claimedImagePayload (image : String) : String :=
  String.mk (claimedImagePayloadL image.data)

/-! ## Markup renderer (components/MathResponse.tsx, MathRenderer)

`tex.split(/(\$\$[\s\S]*?\$\$|\$[\s\S]*?\$)/g)` splits the input on lazily
matched `$$...$$` or `$...$` delimiter spans, keeping the matched spans
(the regex has one capturing group covering the whole alternation); each
part is then classified by its leading/trailing delimiters. -/

/-- Find the first `'$'` in the list: the minimal prefix `p` and remainder
`r` with the input equal to `p ++ '$' :: r` (the lazy `[\s\S]*?\$` step). -/
def findDollar : List Char → Option (List Char × List Char)
  | [] => none
  | c :: rest =>
    if c = '$' then some ([], rest)
    else
      match findDollar rest with
      | some (p, r) => some (c :: p, r)
      | none => none

/-- Find the first `"$$"` in the list: the minimal prefix `p` and remainder
`r` with the input equal to `p ++ '$' :: '$' :: r` (the lazy
`[\s\S]*?\$\$` step). -/
def findDoubleDollar : List Char → Option (List Char × List Char)
  | [] => none
  | [_] => none
  | c :: d :: rest =>
    if c = '$' ∧ d = '$' then some ([], rest)
    else
      match findDoubleDollar (d :: rest) with
      | some (p, r) => some (c :: p, r)
      | none => none

/-- Try the delimiter regex `\$\$[\s\S]*?\$\$|\$[\s\S]*?\$` anchored at the
head of the input: the left alternative first; when the input starts with
`"$$"` but no closing `"$$"` exists, the right alternative still matches the
leading `"$$"` itself (its lazy body is empty and the second `'$'` closes
it). Returns the matched span and the remainder. -/
def matchMathSpan : List Char → Option (List Char × List Char)
  | [] => none
  | c :: rest =>
    if c = '$' then
      match rest with
      | [] => none
      | d :: rest2 =>
        if d = '$' then
          match findDoubleDollar rest2 with
          | some (content, r) => some ('$' :: '$' :: (content ++ ['$', '$']), r)
          | none => some (['$', '$'], rest2)
        else
          match findDollar rest with
          | some (content, r) => some ('$' :: (content ++ ['$']), r)
          | none => none
    else none

/-- JavaScript `String.prototype.split` against the delimiter regex, with
the captured delimiter spans kept in the output (fuel-indexed; fuel at least
the input length always suffices, since every step consumes input). -/
def jsSplitFuel : Nat → List Char → List (List Char)
  | _, [] => [[]]
  | 0, s => [s]
  | fuel + 1, c :: rest =>
    match matchMathSpan (c :: rest) with
    | some (m, after) => [] :: m :: jsSplitFuel fuel after
    | none =>
      match jsSplitFuel fuel rest with
      | [] => [[c]]
      | h :: t => (c :: h) :: t

def jsSplitMath (s : List Char) : List (List Char) :=
  jsSplitFuel s.length s

/-- One rendered segment: a block math span, an inline math span, or
literal text. -/
inductive Seg where
  | block (math : String)
  | inline (math : String)
  | lit (t : String)
deriving DecidableEq

/-- The per-part classification of `MathRenderer`: parts wrapped in `$$...$$`
become block math (`slice(2, -2)`), parts wrapped in `$...$` become inline
math (`slice(1, -1)`), and everything else is a literal text span
(`startsWith`/`endsWith`/`slice` are computed on the character list; JS
`slice` with a negative end index clamps to an empty result). -/
def classifyPart (part : List Char) : Seg :=
  if (['$', '$']).isPrefixOf part && (['$', '$']).isSuffixOf part then
    .block (String.mk ((part.drop 2).take (part.length - 4)))
  else if (['$']).isPrefixOf part && (['$']).isSuffixOf part then
    .inline (String.mk ((part.drop 1).take (part.length - 2)))
  else .lit (String.mk part)

/-- The segment list `MathRenderer` produces for an input text. -/
def renderSegments (tex : String) : List Seg :=
  (jsSplitMath tex.data).map classifyPart

/-! ## Helper lemmas about the controller transitions -/

theorem processSolution_of_isSolving (now : Nat) (text : String) (image : Option String)
    (result : Except Unit SolveResponse) (s : AppState) (h : s.isSolving = true) :
    processSolution now text image result s = s := by
  simp [processSolution, h]

theorem processSolution_err_eq (now : Nat) (text : String) (image : Option String)
    (e : Unit) (s : AppState) (h : s.isSolving = false) :
    processSolution now text image (.error e) s =
      { s with
        messages := s.messages ++ [mkUserMsg now text image, mkFallbackMsg now]
        inputValue := ""
        selectedImage := none
        showDrawing := false
        isSolving := false } := by
  simp [processSolution, h]

theorem processSolution_ok_eq (now : Nat) (text : String) (image : Option String)
    (r : SolveResponse) (s : AppState) (h : s.isSolving = false) :
    processSolution now text image (.ok r) s =
      { s with
        messages := s.messages ++ [mkUserMsg now text image, mkAssistantMsg now r]
        inputValue := ""
        selectedImage := none
        showDrawing := false
        isSolving := false
        history := (mkHistoryItem now (solveTitle text r) r.finalAnswer :: s.history).take 20
        store := some ((mkHistoryItem now (solveTitle text r) r.finalAnswer :: s.history).take 20) } := by
  simp [processSolution, saveToHistory, h]

/-! ## Claims about the conversation controller -/

/-- C1: while `isSolving` is true, a call to `processSolution` is dropped —
it appends no message and changes no state at all, whatever the submission
and whatever the pending outcome would have been. -/
theorem solving_drops_submission (now : Nat) (text : String) (image : Option String)
    (result : Except Unit SolveResponse) (s : AppState) (h : s.isSolving = true) :
    processSolution now text image result s = s :=
  processSolution_of_isSolving now text image result s h

theorem solving_drops_submission_witness :
    processSolution 0 ("x") none (.error ()) { initState with isSolving := true }
      = { initState with isSolving := true } :=
  solving_drops_submission 0 ("x") none (.error ()) { initState with isSolving := true } rfl

/-- C2: a submission whose solve call fails grows the message log by exactly
two messages — the user message and an assistant message with the fixed
fallback text and no metadata — resets `isSolving`, and leaves the history
log and the persisted store unchanged. -/
theorem failed_solve_appends_fallback (now : Nat) (text : String) (image : Option String)
    (e : Unit) (s : AppState) (h : s.isSolving = false) :
    (processSolution now text image (.error e) s).messages
        = s.messages ++ [mkUserMsg now text image, mkFallbackMsg now] ∧
    (processSolution now text image (.error e) s).messages.length
        = s.messages.length + 2 ∧
    (mkUserMsg now text image).role = MessageRole.user ∧
    (mkFallbackMsg now).role = MessageRole.assistant ∧
    (mkFallbackMsg now).content
        = "I ran into a problem calculation. Please check your connection or try a different question." ∧
    (mkFallbackMsg now).metadata = none ∧
    (processSolution now text image (.error e) s).isSolving = false ∧
    (processSolution now text image (.error e) s).history = s.history ∧
    (processSolution now text image (.error e) s).store = s.store := by
  rw [processSolution_err_eq now text image e s h]
  refine ⟨rfl, by simp, rfl, rfl, rfl, rfl, rfl, rfl, rfl⟩

theorem failed_solve_appends_fallback_witness :
    (processSolution 0 ("q") none (.error ()) initState).messages.length
      = initState.messages.length + 2 :=
  (failed_solve_appends_fallback 0 ("q") none () initState rfl).2.1

/-- The exclusivity contract for an assistant message: either no structured
metadata and exactly the fixed fallback text, or structured metadata `r`
with the content being nothing but the JSON serialization of that same `r`
(no independent plain text). -/
def assistantContract (m : Message) : Prop :=
  (m.metadata = none ∧ m.content = fallbackText) ∨
  ∃ r, m.metadata = some r ∧ m.content = stringifySolve r

/-- C3: every assistant message `processSolution` ever appends satisfies the
exclusivity contract: fallback text with no metadata, or a structured
solution whose `content` is merely its own serialization — never
independently populated plain text alongside a structured solution. -/
theorem assistant_message_exclusivity (now : Nat) (text : String) (image : Option String)
    (result : Except Unit SolveResponse) (s : AppState) :
    ∀ m ∈ ((processSolution now text image result s).messages).drop s.messages.length,
      m.role = MessageRole.assistant → assistantContract m := by
  intro m hm hrole
  cases hs : s.isSolving with
  | true =>
    rw [processSolution_of_isSolving now text image result s hs, List.drop_length] at hm
    exact absurd hm (List.not_mem_nil m)
  | false =>
    cases result with
    | error e =>
      rw [processSolution_err_eq now text image e s hs] at hm
      simp only [List.drop_left, List.mem_cons, List.not_mem_nil, or_false] at hm
      rcases hm with hm | hm
      · rw [hm] at hrole; exact absurd hrole (by simp [mkUserMsg])
      · exact Or.inl ⟨by rw [hm]; rfl, by rw [hm]; rfl⟩
    | ok r =>
      rw [processSolution_ok_eq now text image r s hs] at hm
      simp only [List.drop_left, List.mem_cons, List.not_mem_nil, or_false] at hm
      rcases hm with hm | hm
      · rw [hm] at hrole; exact absurd hrole (by simp [mkUserMsg])
      · exact Or.inr ⟨r, by rw [hm]; rfl, by rw [hm]; rfl⟩

set_option maxRecDepth 8000 in
theorem assistant_message_exclusivity_witness :
    assistantContract (mkFallbackMsg 0) :=
  assistant_message_exclusivity 0 ("q") none (.error ()) initState (mkFallbackMsg 0)
    (by decide) rfl

/-- C6: the stored history title is the input truncated to its first 30
characters followed by the `"..."` ellipsis marker when the input is longer
than 30 characters, and the unmodified input otherwise. -/
theorem history_title_truncation (now : Nat) (title lastMsg : String) :
    (30 < title.length → (mkHistoryItem now title lastMsg).title = title.take 30 ++ "...") ∧
    (title.length ≤ 30 → (mkHistoryItem now title lastMsg).title = title) := by
  constructor
  · intro h
    simp [mkHistoryItem, h]
  · intro h
    simp [mkHistoryItem, Nat.not_lt.mpr h]

set_option maxRecDepth 4000 in
theorem history_title_truncation_witness :
    (mkHistoryItem 0 ("abcdefghijklmnopqrstuvwxyz01234") ("m")).title
        = ("abcdefghijklmnopqrstuvwxyz01234").take 30 ++ "..." ∧
    (mkHistoryItem 0 ("short") ("m")).title = "short" :=
  ⟨(history_title_truncation 0 ("abcdefghijklmnopqrstuvwxyz01234") ("m")).1 (by decide),
   (history_title_truncation 0 ("short") ("m")).2 (by decide)⟩

/-- C7: "Clear All History" empties the message log, the history log and the
durable store entry; the header clear-conversation action empties only the
message log and leaves the history log and the store untouched. -/
theorem clear_operations (s : AppState) :
    (clearHistory s).messages = [] ∧
    (clearHistory s).history = [] ∧
    (clearHistory s).store = none ∧
    (clearConversation s).messages = [] ∧
    (clearConversation s).history = s.history ∧
    (clearConversation s).store = s.store := by
  refine ⟨rfl, rfl, rfl, rfl, rfl, rfl⟩

/-! ## The history cap (C5, C9) -/

theorem take_append_take {γ : Type} (xs ys : List γ) (n : Nat) :
    (xs ++ ys.take n).take n = (xs ++ ys).take n := by
  rw [List.take_append_eq_append_take, List.take_append_eq_append_take, List.take_take,
    Nat.min_eq_left (Nat.sub_le n xs.length)]

theorem runSolves_spec (calls : List SolveCall) :
    ∀ s : AppState, s.isSolving = false → s.history.length ≤ 20 →
      (runSolves calls s).isSolving = false ∧
      (runSolves calls s).history = ((calls.map solveEntry).reverse ++ s.history).take 20 ∧
      (calls ≠ [] → (runSolves calls s).store = some ((runSolves calls s).history)) := by
  induction calls with
  | nil =>
    intro s h hlen
    refine ⟨h, ?_, fun hne => absurd rfl hne⟩
    simp [runSolves, List.take_of_length_le hlen]
  | cons c cs ih =>
    intro s h hlen
    have hstep := processSolution_ok_eq c.now c.text c.image c.response s h
    have hrun : runSolves (c :: cs) s
        = runSolves cs (processSolution c.now c.text c.image (.ok c.response) s) := by
      simp [runSolves]
    have hs' : (processSolution c.now c.text c.image (.ok c.response) s).isSolving = false := by
      rw [hstep]
    have hh' : (processSolution c.now c.text c.image (.ok c.response) s).history
        = (solveEntry c :: s.history).take 20 := by
      rw [hstep]; simp [solveEntry]
    have hst' : (processSolution c.now c.text c.image (.ok c.response) s).store
        = some ((solveEntry c :: s.history).take 20) := by
      rw [hstep]; simp [solveEntry]
    have hlen' : (processSolution c.now c.text c.image (.ok c.response) s).history.length ≤ 20 := by
      rw [hh']
      exact List.length_take_le 20 (solveEntry c :: s.history)
    obtain ⟨ih1, ih2, ih3⟩ := ih (processSolution c.now c.text c.image (.ok c.response) s) hs' hlen'
    refine ⟨by rw [hrun]; exact ih1, ?_, ?_⟩
    · rw [hrun, ih2, hh', take_append_take]
      simp [List.append_assoc]
    · intro _
      cases cs with
      | nil =>
        have hnil : runSolves ([] : List SolveCall)
            (processSolution c.now c.text c.image (.ok c.response) s)
            = processSolution c.now c.text c.image (.ok c.response) s := rfl
        rw [hrun, hnil, hst', hh']
      | cons c2 cs2 =>
        rw [hrun]
        exact ih3 (by simp)

/-- C5: starting from a non-solving state whose history holds at most 20
entries, any sequence of successful solves leaves the history equal to the
new entries (newest first) prepended to the old ones and truncated to the
first 20; the log never exceeds 20 entries, the persisted store mirrors it
after every write, and after 20 or more successes it holds exactly the 20
most recent entries, newest first — oldest evicted first. -/
theorem history_cap_fifo (calls : List SolveCall) (s : AppState)
    (h : s.isSolving = false) (hlen : s.history.length ≤ 20) :
    (runSolves calls s).history = (historyEntriesOf calls ++ s.history).take 20 ∧
    (runSolves calls s).history.length ≤ 20 ∧
    (calls ≠ [] → (runSolves calls s).store = some ((runSolves calls s).history)) ∧
    (20 ≤ calls.length → (runSolves calls s).history = (historyEntriesOf calls).take 20) := by
  obtain ⟨h1, h2, h3⟩ := runSolves_spec calls s h hlen
  have hent : historyEntriesOf calls = (calls.map solveEntry).reverse := rfl
  refine ⟨by rw [hent]; exact h2, ?_, h3, ?_⟩
  · rw [h2]
    exact List.length_take_le 20 _
  · intro h20
    rw [hent, h2, List.take_append_eq_append_take]
    have hl : (20 : Nat) - ((calls.map solveEntry).reverse).length = 0 := by
      rw [List.length_reverse, List.length_map]
      exact Nat.sub_eq_zero_of_le h20
    rw [hl]
    simp

/-- A concrete structured response used by witnesses. -/
def demoResponse : SolveResponse :=
  { description := "d", concepts := [], steps := [], finalAnswer := "a" }

/-- A concrete successful solve call used by witnesses. -/
def demoCall : SolveCall :=
  { now := 0, text := "q", image := none, response := demoResponse }

theorem history_cap_fifo_witness :
    (runSolves (List.replicate 21 demoCall) initState).history.length ≤ 20 :=
  (history_cap_fifo (List.replicate 21 demoCall) initState rfl (by decide)).2.1

/-- C9: the startup load installs the persisted value verbatim — an absent
store key changes nothing (the history log stays as initialised), a present
key replaces the in-memory history with the stored list in full with no
truncation or validation (even beyond 20 entries) — and the 20-entry cap is
re-established by the next successful solve, which always leaves at most 20
entries. -/
theorem startup_load_verbatim :
    (∀ s : AppState, s.store = none → loadHistoryEffect s = s) ∧
    (∀ (s : AppState) (l : List ChatHistoryItem), s.store = some l →
        (loadHistoryEffect s).history = l) ∧
    (∀ (now : Nat) (text : String) (image : Option String) (r : SolveResponse) (s : AppState),
        s.isSolving = false →
        ((processSolution now text image (.ok r) s).history).length ≤ 20) := by
  refine ⟨?_, ?_, ?_⟩
  · intro s h
    simp [loadHistoryEffect, h]
  · intro s l h
    simp [loadHistoryEffect, h]
  · intro now text image r s h
    rw [processSolution_ok_eq now text image r s h]
    exact List.length_take_le 20 _

/-- A concrete history item used by witnesses. -/
def demoItem : ChatHistoryItem :=
  { id := "i", title := "t", timestamp := 0, lastMessage := "m" }

/-- A state whose persisted store holds 21 entries — more than the cap. -/
def overfullState : AppState :=
  { initState with store := some (List.replicate 21 demoItem) }

theorem startup_load_verbatim_witness :
    (loadHistoryEffect overfullState).history = List.replicate 21 demoItem ∧
    ((processSolution 0 ("q") none (.ok demoResponse) (loadHistoryEffect overfullState)).history).length ≤ 20 :=
  ⟨startup_load_verbatim.2.1 overfullState (List.replicate 21 demoItem) rfl,
   startup_load_verbatim.2.2 0 ("q") none demoResponse (loadHistoryEffect overfullState) rfl⟩

/-! ## The markup renderer claims (C8) -/

theorem matchMathSpan_none {c : Char} (rest : List Char) (h : c ≠ '$') :
    matchMathSpan (c :: rest) = none := by
  simp [matchMathSpan, h]

theorem jsSplitFuel_no_dollar :
    ∀ (fuel : Nat) (s : List Char), '$' ∉ s → jsSplitFuel fuel s = [s]
  | fuel, [], _ => by cases fuel <;> rfl
  | 0, _ :: _, _ => rfl
  | fuel + 1, c :: rest, h => by
    have hc : c ≠ '$' := fun hh => h (by rw [hh]; exact List.mem_cons_self _ _)
    have hr : '$' ∉ rest := fun hh => h (List.mem_cons_of_mem c hh)
    simp [jsSplitFuel, matchMathSpan_none rest hc, jsSplitFuel_no_dollar fuel rest hr]

/-- C8: the renderer's splitting of `"Solve $x+1=2$ now"` yields exactly the
three segments literal `"Solve "`, inline math `"x+1=2"`, literal `" now"`;
the unmatched input `"$x+1"` stays one literal segment with no dangling math
span; and in general any input without a `'$'` delimiter is preserved as a
single literal part. -/
theorem markup_split_segments :
    renderSegments "Solve $x+1=2$ now" = [Seg.lit "Solve ", Seg.inline "x+1=2", Seg.lit " now"] ∧
    renderSegments "$x+1" = [Seg.lit "$x+1"] ∧
    (∀ s : List Char, '$' ∉ s → jsSplitMath s = [s]) := by
  refine ⟨by decide, by decide, ?_⟩
  intro s h
  exact jsSplitFuel_no_dollar s.length s h

theorem markup_split_segments_witness :
    jsSplitMath (("no math here").data) = [("no math here").data] :=
  markup_split_segments.2.2 (("no math here").data) (by decide)

/-! ## The solve request client claims (C4, C10) -/

/-- C4 counterexample: an empty or absent response body is NOT a failure —
`JSON.parse(response.text || "{}")` turns it into a successful empty object,
which is missing every required field of the expected structured shape. -/
theorem empty_response_success_cex :
    solveMathProblemResult (.ok none) = .ok (.obj []) ∧
    solveMathProblemResult (.ok (some (""))) = .ok (.obj []) ∧
    specRequiredShape (.obj []) = false :=
  ⟨rfl, rfl, rfl⟩

/-- C4 (amended): `solveMathProblem` fails exactly on a transport failure or
on response text that is not valid JSON; an absent or empty body is
substituted with the empty-object literal and succeeds, and any valid JSON
value is returned with no schema validation, so values missing the required
fields are returned successfully. -/
theorem solve_decode_amended :
    solveMathProblemResult (.error ()) = .error () ∧
    solveMathProblemResult (.ok none) = .ok (.obj []) ∧
    (∀ t : String, t ≠ "" →
        solveMathProblemResult (.ok (some t)) =
          (match jsonParse t with
           | some v => .ok v
           | none => .error ())) ∧
    solveMathProblemResult (.ok (some ("[1]"))) = .ok (.arr [.num "1"]) ∧
    specRequiredShape (.arr [.num "1"]) = false := by
  refine ⟨rfl, rfl, ?_, rfl, rfl⟩
  intro t ht
  simp [solveMathProblemResult, jsSubstituteEmpty, ht]

theorem solve_decode_amended_witness :
    solveMathProblemResult (.ok (some ("nope"))) =
      (match jsonParse ("nope") with
       | some v => .ok v
       | none => .error ()) :=
  solve_decode_amended.2.2.1 ("nope") (by decide)

/-- C10 counterexample: for the image string `"a,b,c"` the code sends the
segment between the first and second commas (`"b"`), not the substring
after the first comma (`"b,c"`) that the claim describes. -/
theorem image_payload_cex :
    imageDataPayload ("a,b,c") = "b" ∧
    claimedImagePayload ("a,b,c") = "b,c" ∧
    imageDataPayload ("a,b,c") ≠ claimedImagePayload ("a,b,c") :=
  ⟨by decide, by decide, by decide⟩

theorem splitComma_no_comma : ∀ s : List Char, ',' ∉ s → splitComma s = [s]
  | [], _ => rfl
  | c :: rest, h => by
    have hc : c ≠ ',' := fun hh => h (by rw [hh]; exact List.mem_cons_self _ _)
    have hr : ',' ∉ rest := fun hh => h (List.mem_cons_of_mem c hh)
    simp [splitComma, hc, splitComma_no_comma rest hr]

theorem splitComma_append (a b : List Char) (ha : ',' ∉ a) :
    splitComma (a ++ ',' :: b) = a :: splitComma b := by
  induction a with
  | nil => simp [splitComma]
  | cons c a' ih =>
    have hc : c ≠ ',' := fun hh => ha (by rw [hh]; exact List.mem_cons_self _ _)
    have ha' : ',' ∉ a' := fun hh => ha (List.mem_cons_of_mem c hh)
    simp [splitComma, hc, ih ha']

/-- C10 (amended): the payload is the segment between the first and the
second comma when that segment exists and is non-empty — in particular, for
a well-formed data URL `header,data` with a comma-free non-empty body the
header is stripped — and the whole string otherwise; the declared MIME type
is always `"image/png"` regardless of the original image format. -/
theorem image_payload_amended :
    (∀ a b : List Char, ',' ∉ a → ',' ∉ b → b ≠ [] →
        imageDataPayloadL (a ++ ',' :: b) = b) ∧
    (∀ s : List Char, ',' ∉ s → imageDataPayloadL s = s) ∧
    (∀ img : String, (buildInlineImagePart img).mimeType = "image/png") := by
  refine ⟨?_, ?_, fun _ => rfl⟩
  · intro a b ha hb hbne
    simp [imageDataPayloadL, splitComma_append a b ha, splitComma_no_comma b hb, hbne]
  · intro s h
    simp [imageDataPayloadL, splitComma_no_comma s h]

theorem image_payload_amended_witness :
    imageDataPayloadL (("data:image/png;base64").data ++ ',' :: ("QUJD").data)
      = ("QUJD").data :=
  image_payload_amended.1 (("data:image/png;base64").data) (("QUJD").data)
    (by decide) (by decide) (by decide)
